import Mathlib

/-!
Verification of the pumpdotfun-sdk batching, retry, lookup-table polling and
bundle-submission logic.  Every definition below is a shallow embedding of a
function (or inline loop) of the TypeScript sources; the theorems settle the
frozen claims about them.
-/

/-- Embeds batchArray (src/index.ts lines 27-33, duplicated in
src/unnamed/part_003 lines 112-118 and src/unnamed/part_005 lines 74-80).
The source loop pushes array.slice(i, i + batchSize) for i = 0, batchSize,
2*batchSize, ...; it therefore runs ceil(length / batchSize) times and the
i-th iteration contributes (array.drop (batchSize * i)).take batchSize.
For batchSize = 0 the source loop does not terminate, so the model is only
meaningful for a positive batch size (every claim assumes one). -/
def batchArray {α : Type} (array : List α) (batchSize : Nat) : List (List α) :=
  (List.range ((array.length + batchSize - 1) / batchSize)).map
    (fun i => (array.drop (batchSize * i)).take batchSize)

theorem batchArray_nil {α : Type} (k : Nat) : batchArray ([] : List α) k = [] := by
  have h : (k - 1) / k = 0 := by
    rcases k with _ | kk
    · rfl
    · exact Nat.div_eq_of_lt (by omega)
  simp [batchArray, h]

/-- Unfolding equation of batchArray on a nonempty list: the first chunk is
the first batchSize elements, the remaining chunks are the chunks of the
rest of the list. -/
theorem batchArray_cons {α : Type} (x : α) (xs : List α) (k : Nat) (hk : 0 < k) :
    batchArray (x :: xs) k
      = (x :: xs).take k :: batchArray (xs.drop (k - 1)) k := by
  unfold batchArray
  have hcount : ((x :: xs).length + k - 1) / k = xs.length / k + 1 := by
    simp only [List.length_cons]
    have h1 : xs.length + 1 + k - 1 = xs.length + k := by omega
    rw [h1, Nat.add_div_right _ hk]
  have hcount2 : ((xs.drop (k - 1)).length + k - 1) / k = xs.length / k := by
    simp only [List.length_drop]
    rcases Nat.lt_or_ge xs.length (k - 1) with h | h
    · have h1 : xs.length - (k - 1) + k - 1 = k - 1 := by omega
      rw [h1, Nat.div_eq_of_lt (by omega), Nat.div_eq_of_lt (by omega)]
    · have h1 : xs.length - (k - 1) + k - 1 = xs.length := by omega
      rw [h1]
  rw [hcount, hcount2, List.range_succ_eq_map, List.map_cons, List.map_map]
  refine congrArg₂ List.cons (by simp) ?_
  have hfun :
      ((fun i => ((x :: xs).drop (k * i)).take k) ∘ Nat.succ)
        = fun i => ((xs.drop (k - 1)).drop (k * i)).take k := by
    funext i
    simp only [Function.comp_apply]
    rw [List.drop_drop]
    have h2 : k * Nat.succ i = (k - 1 + k * i) + 1 := by
      rw [Nat.mul_succ]
      omega
    rw [h2, List.drop_succ_cons]
  rw [hfun]

theorem batchArray_eq_nil_iff {α : Type} (l : List α) (k : Nat) (hk : 0 < k) :
    batchArray l k = [] ↔ l = [] := by
  cases l with
  | nil => simp [batchArray_nil]
  | cons x xs => simp [batchArray_cons x xs k hk]

/-- Concatenating the chunks in order gives back the input list. -/
theorem batchArray_flatten {α : Type} (k : Nat) (hk : 0 < k) (l : List α) :
    (batchArray l k).flatten = l := by
  match l with
  | [] => simp [batchArray_nil]
  | x :: xs =>
    have ih := batchArray_flatten k hk (xs.drop (k - 1))
    obtain ⟨j, rfl⟩ : ∃ j, k = j + 1 := ⟨k - 1, by omega⟩
    rw [batchArray_cons x xs (j + 1) hk]
    simp only [Nat.add_sub_cancel] at ih ⊢
    simp only [List.flatten_cons, ih, List.take_succ_cons, List.cons_append,
      List.take_append_drop]
termination_by l.length
decreasing_by
  simp only [List.length_drop, List.length_cons]
  omega

/-- Every chunk has at most k elements. -/
theorem batchArray_length_le {α : Type} (k : Nat) (hk : 0 < k) (l : List α) :
    ∀ c ∈ batchArray l k, c.length ≤ k := by
  match l with
  | [] => simp [batchArray_nil]
  | x :: xs =>
    have ih := batchArray_length_le k hk (xs.drop (k - 1))
    rw [batchArray_cons x xs k hk]
    intro c hc
    rcases List.mem_cons.mp hc with h | h
    · subst h; exact List.length_take_le _ _
    · exact ih c h
termination_by l.length
decreasing_by
  simp only [List.length_drop, List.length_cons]
  omega

/-- Every chunk except possibly the last has exactly k elements. -/
theorem batchArray_dropLast_length {α : Type} (k : Nat) (hk : 0 < k) (l : List α) :
    ∀ c ∈ (batchArray l k).dropLast, c.length = k := by
  match l with
  | [] => simp [batchArray_nil]
  | x :: xs =>
    have ih := batchArray_dropLast_length k hk (xs.drop (k - 1))
    rw [batchArray_cons x xs k hk]
    cases hrest : batchArray (xs.drop (k - 1)) k with
    | nil => simp
    | cons r rs =>
      intro c hc
      rw [List.dropLast_cons₂] at hc
      rcases List.mem_cons.mp hc with h | h
      · subst h
        have hne : xs.drop (k - 1) ≠ [] := by
          intro hnil
          rw [hnil, batchArray_nil] at hrest
          exact List.noConfusion hrest
        have hlen : k - 1 < xs.length := by
          by_contra hge
          exact hne (List.drop_eq_nil_of_le (by omega))
        simp only [List.length_take, List.length_cons]
        omega
      · rw [← hrest] at h
        exact ih c h
termination_by l.length
decreasing_by
  simp only [List.length_drop, List.length_cons]
  omega

/-- C3: for every operation list and every positive chunk bound, batchArray
partitions the list into consecutive chunks (their concatenation in order is
the input), every chunk except possibly the last has exactly the bound many
elements, no chunk exceeds the bound, and 12 operations with bound 5 yield
exactly the chunk sizes [5, 5, 2]. -/
theorem batchArray_spec {α : Type} (l : List α) (k : Nat) (hk : 0 < k) :
    (batchArray l k).flatten = l
      ∧ (∀ c ∈ (batchArray l k).dropLast, c.length = k)
      ∧ (∀ c ∈ batchArray l k, c.length ≤ k)
      ∧ (batchArray (List.range 12) 5).map List.length = [5, 5, 2] := by
  refine ⟨batchArray_flatten k hk l, batchArray_dropLast_length k hk l,
    batchArray_length_le k hk l, ?_⟩
  decide

theorem batchArray_spec_witness :
    0 < 5
      ∧ ((batchArray (List.range 12) 5).flatten = List.range 12
        ∧ (∀ c ∈ (batchArray (List.range 12) 5).dropLast, c.length = 5)
        ∧ (∀ c ∈ batchArray (List.range 12) 5, c.length ≤ 5)
        ∧ (batchArray (List.range 12) 5).map List.length = [5, 5, 2]) :=
  ⟨by decide, batchArray_spec (List.range 12) 5 (by decide)⟩

/-- Embeds the batch submission loop of src/unnamed/part_003 lines 257-293:
each batch whose signed serialized size exceeds 1232 bytes is skipped whole
(continue), every other batch is sent unchanged.  The serialized size of a
signed transaction is an external primitive, so it is a parameter. -/
def sendBatchLoop {α : Type} (serializedSize : α → Nat) : List α → List α
  | [] => []
  | b :: rest =>
    if serializedSize b > 1232 then sendBatchLoop serializedSize rest
    else b :: sendBatchLoop serializedSize rest

/-- Embeds the sell-transaction submission loop of src/unnamed/part_005
lines 244-276: the size guard there uses the stricter bound 1200 bytes. -/
def sendSellBatchLoop {α : Type} (serializedSize : α → Nat) : List α → List α
  | [] => []
  | b :: rest =>
    if serializedSize b > 1200 then sendSellBatchLoop serializedSize rest
    else b :: sendSellBatchLoop serializedSize rest

theorem sendBatchLoop_sound {α : Type} (serializedSize : α → Nat)
    (batches : List α) (b : α) (hb : b ∈ sendBatchLoop serializedSize batches) :
    serializedSize b ≤ 1232 ∧ b ∈ batches := by
  induction batches with
  | nil => cases hb
  | cons c rest ih =>
    rw [sendBatchLoop] at hb
    by_cases hc : serializedSize c > 1232
    · rw [if_pos hc] at hb
      rcases ih hb with ⟨h1, h2⟩
      exact ⟨h1, List.mem_cons_of_mem c h2⟩
    · rw [if_neg hc] at hb
      rcases List.mem_cons.mp hb with h | h
      · subst h; exact ⟨by omega, List.mem_cons_self _ _⟩
      · rcases ih h with ⟨h1, h2⟩
        exact ⟨h1, List.mem_cons_of_mem c h2⟩

theorem sendSellBatchLoop_sound {α : Type} (serializedSize : α → Nat)
    (batches : List α) (b : α) (hb : b ∈ sendSellBatchLoop serializedSize batches) :
    serializedSize b ≤ 1232 ∧ b ∈ batches := by
  induction batches with
  | nil => cases hb
  | cons c rest ih =>
    rw [sendSellBatchLoop] at hb
    by_cases hc : serializedSize c > 1200
    · rw [if_pos hc] at hb
      rcases ih hb with ⟨h1, h2⟩
      exact ⟨h1, List.mem_cons_of_mem c h2⟩
    · rw [if_neg hc] at hb
      rcases List.mem_cons.mp hb with h | h
      · subst h; exact ⟨by omega, List.mem_cons_self _ _⟩
      · rcases ih h with ⟨h1, h2⟩
        exact ⟨h1, List.mem_cons_of_mem c h2⟩

/-- C1: every transaction batch that either submission loop actually sends
has serialized size at most the 1232-byte network ceiling, and it is one of
the packed chunks handed to the loop, sent whole — an oversized chunk is
skipped as a unit and nothing is truncated or re-split to fit. -/
theorem submitted_batch_size_ceiling {α : Type} (serializedSize : α → Nat)
    (batches : List α) (b : α) :
    (b ∈ sendBatchLoop serializedSize batches
        → serializedSize b ≤ 1232 ∧ b ∈ batches)
      ∧ (b ∈ sendSellBatchLoop serializedSize batches
        → serializedSize b ≤ 1232 ∧ b ∈ batches) :=
  ⟨sendBatchLoop_sound serializedSize batches b,
    sendSellBatchLoop_sound serializedSize batches b⟩

theorem submitted_batch_size_ceiling_witness :
    (100 : Nat) ∈ sendBatchLoop (fun n => n) [100, 2000, 50]
      ∧ ((fun n => n) (100 : Nat) ≤ 1232 ∧ (100 : Nat) ∈ [100, 2000, 50]) :=
  ⟨by decide,
    (submitted_batch_size_ceiling (fun n => n) [100, 2000, 50] 100).1 (by decide)⟩

/-- Character-list prefix test, spelled out so that the kernel can evaluate
it (used to model JavaScript String.prototype.includes). -/
def charsStartWith : List Char → List Char → Bool
  | [], _ => true
  | _ :: _, [] => false
  | a :: as, b :: bs => a == b && charsStartWith as bs

/-- Character-list substring test: does the second list contain the first
one as a contiguous run? -/
def charsContain : List Char → List Char → Bool
  | sub, [] => charsStartWith sub []
  | sub, c :: cs => charsStartWith sub (c :: cs) || charsContain sub cs

/-- Models error.message.includes(needle) from the sources. -/
def strIncludes (s needle : String) : Bool :=
  charsContain needle.data s.data

/-- The recoverability needle checked by retryTransaction
(src/index.ts line 76). -/
def NOT_A_RECENT_SLOT : String := "not a recent slot"

/-- A JavaScript thrown value as retryTransaction inspects it: whether it is
an instance of Error, and its message. -/
structure JsError where
  isErrorInstance : Bool
  message : String
deriving DecidableEq

/-- The outcome of one call of the wrapped transactionFn: either a signature
string or a thrown value. -/
inductive AttemptResult where
  | ok (signature : String)
  | thrown (e : JsError)
deriving DecidableEq

/-- The terminal outcome of retryTransaction: a signature, a rethrown caught
error, or the generic error thrown after the loop (reachable only when
retries = 0). -/
inductive RetryOutcome where
  | success (signature : String)
  | propagated (e : JsError)
  | exhausted
deriving DecidableEq

/-- The recoverability test of src/index.ts lines 74-78:
error instanceof Error && error.message.includes("not a recent slot"). -/
def isRecoverableAttempt (e : JsError) : Bool :=
  e.isErrorInstance && strIncludes e.message NOT_A_RECENT_SLOT

/-- Embeds the body of retryTransaction (src/index.ts lines 65-86) from a
given attempt number onwards.  txFn gives the result of each attempt (the
wrapped call is impure, so attempt number indexes its successive results).
Returns the terminal outcome together with the number of calls performed
from this attempt on. -/
def retryGo (txFn : Nat → AttemptResult) (retries : Nat) (attempt : Nat) :
    RetryOutcome × Nat :=
  if h : attempt ≤ retries then
    match txFn attempt with
    | .ok s => (.success s, 1)
    | .thrown e =>
      if isRecoverableAttempt e && decide (attempt < retries) then
        ((retryGo txFn retries (attempt + 1)).1,
          (retryGo txFn retries (attempt + 1)).2 + 1)
      else (.propagated e, 1)
  else (.exhausted, 0)
termination_by retries + 1 - attempt
decreasing_by
  omega

/-- retryTransaction starts its for-loop at attempt 1. -/
def retryTransaction (txFn : Nat → AttemptResult) (retries : Nat) :
    RetryOutcome × Nat :=
  retryGo txFn retries 1

theorem retryGo_exhausts (txFn : Nat → AttemptResult) (retries attempt : Nat)
    (h1 : 1 ≤ attempt) (h2 : attempt ≤ retries)
    (hfail : ∀ k, attempt ≤ k → k ≤ retries →
      ∃ e, txFn k = .thrown e ∧ isRecoverableAttempt e = true) :
    (retryGo txFn retries attempt).2 = retries - attempt + 1
      ∧ ∃ e, (retryGo txFn retries attempt).1 = .propagated e
          ∧ txFn retries = .thrown e := by
  obtain ⟨e, he, hrec⟩ := hfail attempt (Nat.le_refl attempt) h2
  rcases Nat.lt_or_ge attempt retries with hlt | hge
  · have ih := retryGo_exhausts txFn retries (attempt + 1) (by omega) (by omega)
      (fun k hk1 hk2 => hfail k (by omega) hk2)
    have hcond : (isRecoverableAttempt e && decide (attempt < retries)) = true := by
      simp [hrec, hlt]
    rw [retryGo, dif_pos h2, he]
    simp only [hcond, if_true]
    constructor
    · show (retryGo txFn retries (attempt + 1)).2 + 1 = retries - attempt + 1
      rw [ih.1]
      omega
    · show ∃ e1, (retryGo txFn retries (attempt + 1)).1 = RetryOutcome.propagated e1
          ∧ txFn retries = AttemptResult.thrown e1
      exact ih.2
  · have heq : attempt = retries := by omega
    subst heq
    have hcond : (isRecoverableAttempt e && decide (attempt < attempt)) = false := by
      simp
    rw [retryGo, dif_pos h2, he]
    simp only [hcond, Bool.false_eq_true, if_false]
    exact ⟨by omega, e, rfl, rfl⟩
termination_by retries + 1 - attempt
decreasing_by
  omega

/-- C4: when every attempt fails with a recoverable error, retryTransaction
calls the wrapped operation exactly retries times (never fewer, never more)
and then propagates the error of the final attempt. -/
theorem retryTransaction_exhausts (txFn : Nat → AttemptResult) (retries : Nat)
    (hr : 1 ≤ retries)
    (hfail : ∀ k, 1 ≤ k → k ≤ retries →
      ∃ e, txFn k = .thrown e ∧ isRecoverableAttempt e = true) :
    (retryTransaction txFn retries).2 = retries
      ∧ ∃ e, (retryTransaction txFn retries).1 = .propagated e
          ∧ txFn retries = .thrown e := by
  have h := retryGo_exhausts txFn retries 1 (Nat.le_refl 1) hr hfail
  refine ⟨?_, h.2⟩
  rw [retryTransaction, h.1]
  omega

/-- An always-recoverable failing transactionFn used as concrete witness
input. -/
def recoverableError : JsError := ⟨true, NOT_A_RECENT_SLOT⟩

def alwaysRecoverableFn : Nat → AttemptResult :=
  fun _ => AttemptResult.thrown recoverableError

theorem retryTransaction_exhausts_witness :
    (1 ≤ 3
        ∧ ∀ k, 1 ≤ k → k ≤ 3 →
            ∃ e, alwaysRecoverableFn k = AttemptResult.thrown e
              ∧ isRecoverableAttempt e = true)
      ∧ ((retryTransaction alwaysRecoverableFn 3).2 = 3
        ∧ ∃ e, (retryTransaction alwaysRecoverableFn 3).1
              = RetryOutcome.propagated e
            ∧ alwaysRecoverableFn 3 = AttemptResult.thrown e) :=
  ⟨⟨by decide, fun _ _ _ => ⟨recoverableError, rfl, by decide⟩⟩,
    retryTransaction_exhausts alwaysRecoverableFn 3 (by decide)
      (fun _ _ _ => ⟨recoverableError, rfl, by decide⟩)⟩

/-- C5: within a retryTransaction run, an attempt that throws a recoverable
error (an Error instance whose message contains "not a recent slot") while
attempts remain leads to exactly one further attempt of the loop, while an
attempt that throws any other error — or any error on the final attempt —
makes the loop rethrow that error immediately after a single call, with no
further attempts. -/
theorem retry_error_classification (txFn : Nat → AttemptResult)
    (retries attempt : Nat) (e : JsError)
    (h1 : 1 ≤ attempt) (h2 : attempt ≤ retries)
    (he : txFn attempt = .thrown e) :
    (isRecoverableAttempt e = true → attempt < retries →
        retryGo txFn retries attempt
          = ((retryGo txFn retries (attempt + 1)).1,
              (retryGo txFn retries (attempt + 1)).2 + 1))
      ∧ (isRecoverableAttempt e = false ∨ attempt = retries →
          retryGo txFn retries attempt = (.propagated e, 1)) := by
  have hle : 1 ≤ attempt := h1
  constructor
  · intro hrec hlt
    rw [retryGo, dif_pos h2, he]
    simp [hrec, hlt]
  · intro hcase
    have hcond : (isRecoverableAttempt e && decide (attempt < retries)) = false := by
      rcases hcase with h | h
      · simp [h]
      · simp [h]
    rw [retryGo, dif_pos h2, he]
    simp [hcond]

/-- A fatal (non-recoverable) error used as concrete witness input. -/
def fatalMessage : String := "insufficient funds"

def fatalError : JsError := ⟨true, fatalMessage⟩

def alwaysFatalFn : Nat → AttemptResult :=
  fun _ => AttemptResult.thrown fatalError

theorem retry_error_classification_witness :
    (1 ≤ 1 ∧ 1 ≤ 3 ∧ alwaysFatalFn 1 = AttemptResult.thrown fatalError)
      ∧ ((isRecoverableAttempt fatalError = true → 1 < 3 →
            retryGo alwaysFatalFn 3 1
              = ((retryGo alwaysFatalFn 3 2).1, (retryGo alwaysFatalFn 3 2).2 + 1))
        ∧ (isRecoverableAttempt fatalError = false ∨ 1 = 3 →
            retryGo alwaysFatalFn 3 1 = (RetryOutcome.propagated fatalError, 1))) :=
  ⟨⟨by decide, by decide, rfl⟩,
    retry_error_classification alwaysFatalFn 3 1 fatalError (by decide) (by decide) rfl⟩

/-- Embeds the polling loop of fetchLookupTable (src/unnamed/part_000 lines
68-89, duplicated in src/unnamed/part_003 lines 88-109 and as
fetchAndValidateALT in src/index.ts lines 89-112) from loop index i on.
poll i models the i-th getAddressLookupTable call: some snapshot when the
table is resolvable (lookupTable.value non-null), none when it is not yet
available or the call threw (both cases fall through to the delay and the
next retry).  Returns the fetched snapshot (none models the final throw of
the propagation-timeout error) together with the total number of polls
performed by a run started at index 0. -/
def fetchLoop {α : Type} (poll : Nat → Option α) (retries i : Nat) :
    Option α × Nat :=
  if _h : i < retries then
    match poll i with
    | some v => (some v, i + 1)
    | none => fetchLoop poll retries (i + 1)
  else (none, retries)
termination_by retries - i
decreasing_by omega

/-- fetchLookupTable runs the polling loop from index 0. -/
def fetchLookupTable {α : Type} (poll : Nat → Option α) (retries : Nat) :
    Option α × Nat :=
  fetchLoop poll retries 0

theorem fetchLoop_all_none {α : Type} (poll : Nat → Option α) (retries s : Nat)
    (hall : ∀ i, s ≤ i → i < retries → poll i = none) :
    fetchLoop poll retries s = (none, retries) := by
  rw [fetchLoop]
  by_cases hs : s < retries
  · rw [dif_pos hs, hall s (Nat.le_refl s) hs]
    exact fetchLoop_all_none poll retries (s + 1) (fun i hi1 hi2 => hall i (by omega) hi2)
  · rw [dif_neg hs]
termination_by retries - s
decreasing_by omega

theorem fetchLoop_some {α : Type} (poll : Nat → Option α) (retries s : Nat)
    (v : α) (n : Nat) (h : fetchLoop poll retries s = (some v, n)) :
    s < n ∧ n ≤ retries ∧ poll (n - 1) = some v
      ∧ ∀ j, s ≤ j → j < n - 1 → poll j = none := by
  rw [fetchLoop] at h
  by_cases hs : s < retries
  · rw [dif_pos hs] at h
    cases hp : poll s with
    | some w =>
      rw [hp] at h
      rw [Prod.mk.injEq, Option.some.injEq] at h
      obtain ⟨hv, hn⟩ := h
      subst hv
      subst hn
      refine ⟨by omega, by omega, ?_, ?_⟩
      · have hidx : s + 1 - 1 = s := by omega
        rw [hidx]
        exact hp
      · intro j hj1 hj2
        omega
    | none =>
      rw [hp] at h
      have ih := fetchLoop_some poll retries (s + 1) v n h
      refine ⟨by omega, ih.2.1, ih.2.2.1, ?_⟩
      intro j hj1 hj2
      rcases Nat.eq_or_lt_of_le hj1 with heq | hlt
      · subst heq; exact hp
      · exact ih.2.2.2 j (by omega) hj2
  · rw [dif_neg hs] at h
    exact absurd (congrArg Prod.fst h) (by simp)
termination_by retries - s
decreasing_by omega

/-- If the first successful poll is poll i (every earlier poll from the
start index on was unsuccessful) and i is within the budget, the loop
returns its snapshot right there, after i + 1 polls in total. -/
theorem fetchLoop_first_some {α : Type} (poll : Nat → Option α)
    (retries s i : Nat) (v : α) (hs : s ≤ i) (hi : i < retries)
    (hv : poll i = some v) (hnone : ∀ j, s ≤ j → j < i → poll j = none) :
    fetchLoop poll retries s = (some v, i + 1) := by
  rcases Nat.eq_or_lt_of_le hs with heq | hlt
  · subst heq
    rw [fetchLoop, dif_pos hi, hv]
  · rw [fetchLoop, dif_pos (by omega), hnone s (Nat.le_refl s) hlt]
    exact fetchLoop_first_some poll retries (s + 1) i v (by omega) hi hv
      (fun j hj1 hj2 => hnone j (by omega) hj2)
termination_by retries - s
decreasing_by omega

/-- If any poll from the start index up to the budget is successful, the
loop returns a snapshot. -/
theorem fetchLoop_succeeds {α : Type} (poll : Nat → Option α)
    (retries s i : Nat) (hs : s ≤ i) (hi : i < retries) (hv : poll i ≠ none) :
    ∃ v n, fetchLoop poll retries s = (some v, n) := by
  rw [fetchLoop, dif_pos (show s < retries by omega)]
  cases hp : poll s with
  | some w => exact ⟨w, s + 1, rfl⟩
  | none =>
    have hne : s ≠ i := by
      intro h
      rw [← h, hp] at hv
      exact hv rfl
    exact fetchLoop_succeeds poll retries (s + 1) i (by omega) hi hv
termination_by retries - s
decreasing_by omega

/-- C6: the await-active poll (a) fails with the propagation-timeout error
after exactly retries polls when every poll within the budget is
unsuccessful, (b) returns the snapshot as soon as one poll finds the table
resolvable — when poll i is the first successful poll and i < retries, the
result is that snapshot after exactly i + 1 polls, (c) returns a snapshot
whenever any poll within the budget is successful, and (d) every returned
snapshot comes from the first successful poll, having polled at most
retries times — so it never returns a snapshot for an unresolvable table
and never polls more than retries times. -/
theorem fetchLookupTable_spec {α : Type} (poll : Nat → Option α) (retries : Nat) :
    ((∀ i, i < retries → poll i = none)
        → fetchLookupTable poll retries = (none, retries))
      ∧ (∀ i v, i < retries → poll i = some v → (∀ j, j < i → poll j = none)
          → fetchLookupTable poll retries = (some v, i + 1))
      ∧ ((∃ i, i < retries ∧ poll i ≠ none)
          → ∃ v n, fetchLookupTable poll retries = (some v, n))
      ∧ (∀ v n, fetchLookupTable poll retries = (some v, n)
          → 1 ≤ n ∧ n ≤ retries ∧ poll (n - 1) = some v
            ∧ ∀ j, j < n - 1 → poll j = none) := by
  refine ⟨?_, ?_, ?_, ?_⟩
  · intro hall
    exact fetchLoop_all_none poll retries 0 (fun i _ hi => hall i hi)
  · intro i v hi hv hnone
    exact fetchLoop_first_some poll retries 0 i v (Nat.zero_le i) hi hv
      (fun j _ hj => hnone j hj)
  · rintro ⟨i, hi, hv⟩
    exact fetchLoop_succeeds poll retries 0 i (Nat.zero_le i) hi hv
  · intro v n h
    have hs := fetchLoop_some poll retries 0 v n h
    exact ⟨by omega, hs.2.1, hs.2.2.1, fun j hj => hs.2.2.2 j (Nat.zero_le j) hj⟩

/-- A concrete poller whose third poll (index 2) first finds the table. -/
def demoPoll : Nat → Option Nat := fun i => if i = 2 then some 42 else none

theorem fetchLookupTable_spec_witness :
    (2 < 10 ∧ demoPoll 2 = some 42 ∧ (∀ j, j < 2 → demoPoll j = none))
      ∧ fetchLookupTable demoPoll 10 = (some 42, 2 + 1) :=
  ⟨⟨by decide, by decide, by decide⟩,
    (fetchLookupTable_spec demoPoll 10).2.1 2 42 (by decide) (by decide) (by decide)⟩

/-- An asynchronous bundle result delivered by the relay result stream
before the 30-second timer fires (src/unnamed/part_004 lines 129-158):
result.accepted set, result.rejected set, or neither. -/
inductive BundleEvent where
  | accepted (bundleId : String) (slot : Nat)
  | rejected (bundleId : String) (reason : String)
  | unknown (bundleId : String)
deriving DecidableEq

def isAcceptedEvent : BundleEvent → Bool
  | .accepted _ _ => true
  | _ => false

/-- Embeds the callback of onBundleResult (src/unnamed/part_004 lines
116-160) applied to the stream of results delivered before the 30-second
timer fires, carrying the accepted count first (initially 0).  An accepted
result increments first and resolves the promise with it (later events are
ignored); a rejected or unknown result is only logged and the promise stays
pending; when the delivered events are exhausted the timer resolves the
promise with the accumulated count. -/
def onBundleResultGo (first : Nat) : List BundleEvent → Nat
  | [] => first
  | .accepted _ _ :: _ => first + 1
  | .rejected _ _ :: rest => onBundleResultGo first rest
  | .unknown _ :: rest => onBundleResultGo first rest

def onBundleResult (events : List BundleEvent) : Nat :=
  onBundleResultGo 0 events

/-- bull_dozer (src/unnamed/part_004 lines 52-80) reports success exactly
when the value onBundleResult resolved with is positive; any other value is
logged as a rejection and reported as failure. -/
def bull_dozer (events : List BundleEvent) : Bool :=
  decide (onBundleResult events > 0)

def demoBundleId : String := "bundle-1"

def demoRejectReason : String := "stateAuctionBidRejected"

/-- C2 counterexample: a run in which the relay explicitly rejects the
bundle resolves with the very same outcome (count 0, reported as failure by
bull_dozer) as a run in which the relay reports nothing until the
30-second timeout, so the caller cannot distinguish a timeout from an
explicit relay rejection. -/
theorem onBundleResult_timeout_indistinct :
    onBundleResult [] = 0
      ∧ onBundleResult [BundleEvent.rejected demoBundleId demoRejectReason] = 0
      ∧ bull_dozer []
        = bull_dozer [BundleEvent.rejected demoBundleId demoRejectReason] := by
  refine ⟨rfl, rfl, rfl⟩

theorem onBundleResultGo_no_accept (first : Nat) :
    ∀ events : List BundleEvent,
      (∀ e ∈ events, isAcceptedEvent e = false) →
        onBundleResultGo first events = first := by
  intro events
  induction events with
  | nil => intro _; rfl
  | cons e rest ih =>
    intro h
    have hrest := fun x hx => h x (List.mem_cons_of_mem e hx)
    cases e with
    | accepted bid slot =>
      have hb := h _ (List.mem_cons_self _ _)
      simp [isAcceptedEvent] at hb
    | rejected bid reason => exact ih hrest
    | unknown bid => exact ih hrest

/-- C2 amended: when the relay reports no acceptance within the 30-second
window the promise resolves with count 0 and bull_dozer reports failure;
an explicit rejection event leaves the promise pending and yields the
identical outcome 0 at the timeout, so the timed-out outcome is not
reported distinctly from a rejection — only acceptance (a positive count)
is distinguished. -/
theorem onBundleResult_timeout (events : List BundleEvent)
    (h : ∀ e ∈ events, isAcceptedEvent e = false) :
    onBundleResult events = 0 ∧ bull_dozer events = false := by
  have h0 := onBundleResultGo_no_accept 0 events h
  refine ⟨h0, ?_⟩
  simp [bull_dozer, onBundleResult, h0]

theorem onBundleResult_timeout_witness :
    (∀ e ∈ [BundleEvent.rejected demoBundleId demoRejectReason],
        isAcceptedEvent e = false)
      ∧ (onBundleResult [BundleEvent.rejected demoBundleId demoRejectReason] = 0
        ∧ bull_dozer [BundleEvent.rejected demoBundleId demoRejectReason] = false) :=
  ⟨by decide, onBundleResult_timeout _ (by decide)⟩

/-- The sub-bundle chunks computed by the loop of bundle
(src/unnamed/part_004 lines 19-50): txNum = ceil(length / 5) iterations,
the i-th collecting the existing entries among txs[5i .. 5i+4]. -/
def bundleChunks {α : Type} (txs : List α) : List (List α) :=
  (List.range ((txs.length + 5 - 1) / 5)).map
    (fun i => (txs.drop (5 * i)).take 5)

/-- Embeds bundle (src/unnamed/part_004 lines 19-50): the sub-bundles are
submitted sequentially through bull_dozer, successNum counts the accepted
ones, and the aggregate result is successNum === txNum.  The outcome of one
sub-bundle submission is abstracted as the accept parameter. -/
def bundle {α : Type} (accept : List α → Bool) (txs : List α) : Bool :=
  decide ((bundleChunks txs).foldl
      (fun successNum c => if accept c then successNum + 1 else successNum) 0
    = (bundleChunks txs).length)

theorem bundleChunks_eq_batchArray {α : Type} (txs : List α) :
    bundleChunks txs = batchArray txs 5 := rfl

theorem foldl_success_count {α : Type} (accept : List α → Bool)
    (chunks : List (List α)) (init : Nat) :
    chunks.foldl (fun n c => if accept c then n + 1 else n) init
      = init + chunks.countP accept := by
  induction chunks generalizing init with
  | nil => simp
  | cons c rest ih =>
    rw [List.foldl_cons, List.countP_cons, ih]
    by_cases hc : accept c = true
    · simp [hc]
      omega
    · simp [hc]

/-- C7: when the transaction count exceeds the relay ceiling of 5, bundle
splits the list in input order into ceil(n/5) sequential sub-bundles of at
most 5 transactions each (concatenating the sub-bundles in order restores
the list), and the aggregate result is true exactly when every sub-bundle
was accepted. -/
theorem bundle_split_spec {α : Type} (accept : List α → Bool) (txs : List α)
    (h5 : 5 < txs.length) :
    (bundleChunks txs).length = (txs.length + 4) / 5
      ∧ (bundleChunks txs).flatten = txs
      ∧ (∀ c ∈ bundleChunks txs, c.length ≤ 5)
      ∧ (bundle accept txs = true ↔ ∀ c ∈ bundleChunks txs, accept c = true) := by
  refine ⟨?_, ?_, ?_, ?_⟩
  · simp [bundleChunks]
  · rw [bundleChunks_eq_batchArray]
    exact batchArray_flatten 5 (by omega) txs
  · rw [bundleChunks_eq_batchArray]
    exact batchArray_length_le 5 (by omega) txs
  · rw [bundle, foldl_success_count]
    rw [decide_eq_true_iff]
    rw [Nat.zero_add]
    exact List.countP_eq_length

theorem bundle_split_spec_witness :
    5 < (List.range 7).length
      ∧ ((bundleChunks (List.range 7)).length = ((List.range 7).length + 4) / 5
        ∧ (bundleChunks (List.range 7)).flatten = List.range 7
        ∧ (∀ c ∈ bundleChunks (List.range 7), c.length ≤ 5)
        ∧ (bundle (fun _ => true) (List.range 7) = true
          ↔ ∀ c ∈ bundleChunks (List.range 7), (fun _ => true) c = true)) :=
  ⟨by decide, bundle_split_spec (fun _ => true) (List.range 7) (by decide)⟩

/-- C9: called with an empty transaction list, bundle computes txNum = 0,
performs zero sub-bundle submissions, and reports aggregate success true
(the all-sub-bundles-accepted condition holds vacuously) instead of failing
or raising an error. -/
theorem bundle_empty {α : Type} (accept : List α → Bool) :
    bundleChunks ([] : List α) = [] ∧ bundle accept ([] : List α) = true := by
  have hnil : bundleChunks ([] : List α) = [] := by
    show (List.range ((0 + 5 - 1) / 5)).map _ = []
    norm_num
  refine ⟨hnil, ?_⟩
  rw [bundle, hnil]
  simp

def tipAccount0 : String := "Cw8CFyM9FkoMi7K7Crf6HNQqf4uEMzpKw6QNghXLvLkY"

def tipAccount1 : String := "DttWaMuVvTiduZRnguLF7jNxTgiMBZ1hyAumKUiL2KRL"

def tipAccount2 : String := "96gYZGLnJYVFmbjzopPSU6QiEV5fGqZNyN9nmNhvrZU5"

def tipAccount3 : String := "3AVi9Tg9Uo68tJfuvoKvqKNWKkC5wPdSSdeBnizKZ6jT"

def tipAccount4 : String := "HFqU5x63VTqvQss8hp11i4wVV8bD44PvwucfZ2bU7gRe"

def tipAccount5 : String := "ADaUMid9yfUytqMBgopwjb2DTLSokTSzL1zt6iGPaS49"

def tipAccount6 : String := "ADuUkR4vqLUMWXxW9gh6D6L8pMSawimctcNZ5pGwDcEt"

def tipAccount7 : String := "DfXygSm4jCyNCybVYYK6DwvWqjKee8pbDmJGcLWNDXjh"

/-- The fixed relay-published tip account candidate list hard-coded in
jitoWithAxios (src/unnamed/part_004 lines 201-210). -/
def TIP_ACCOUNTS : List String :=
  [tipAccount0, tipAccount1, tipAccount2, tipAccount3,
    tipAccount4, tipAccount5, tipAccount6, tipAccount7]

/-- The index picked by build_bundle (src/unnamed/part_004 line 91):
accounts[Math.min(Math.floor(Math.random() * accounts.length), 3)].  The
random draw is modelled by the value k of Math.floor(Math.random() * n),
which ranges over 0 .. n-1. -/
def build_bundle_tipIndex (k : Nat) : Nat := min k 3

def build_bundle_tipAccount (accounts : List String) (k : Nat) : Option String :=
  accounts.get? (build_bundle_tipIndex k)

/-- The tip wallet picked by jitoWithAxios (src/unnamed/part_004 line 211):
tipAccounts[Math.floor(tipAccounts.length * Math.random())], with the floor
value k of the draw ranging over 0 .. n-1. -/
def jitoFeeWallet (tipAccounts : List String) (k : Nat) : Option String :=
  tipAccounts.get? k

/-- C8 counterexample: on the repository's own 8-entry candidate list the
build_bundle selection index is clamped to min(k, 3), so enumerating every
possible value of the random draw never selects the candidate at index 7 —
an element of the list that no value of the draw selects, contradicting the
claimed surjective uniform choice. -/
theorem tip_selection_not_surjective :
    tipAccount7 ∈ TIP_ACCOUNTS
      ∧ ((List.range TIP_ACCOUNTS.length).filterMap
          (fun k => build_bundle_tipAccount TIP_ACCOUNTS k)).contains tipAccount7
        = false := by
  decide

/-- C8 amended: for every candidate list and every value of the draw the
selected tip account is an element of the list in both paths, and in the
jitoWithAxios path every element of the list is selected for some draw; in
the build_bundle path however the drawn index is clamped with min(-, 3), so
only the first four candidates are ever selectable. -/
theorem tip_account_selection (accounts : List String) (k : Nat)
    (hk : k < accounts.length) :
    (∃ a, build_bundle_tipAccount accounts k = some a ∧ a ∈ accounts
        ∧ accounts.get? (min k 3) = some a)
      ∧ (∃ a, jitoFeeWallet accounts k = some a ∧ a ∈ accounts)
      ∧ (∀ i, i < accounts.length
          → ∃ d, d < accounts.length ∧ jitoFeeWallet accounts d = accounts.get? i)
      ∧ build_bundle_tipIndex k ≤ 3 := by
  have hmin : min k 3 < accounts.length := lt_of_le_of_lt (min_le_left k 3) hk
  refine ⟨⟨accounts.get ⟨min k 3, hmin⟩, ?_, List.get_mem _ _ _, ?_⟩,
    ⟨accounts.get ⟨k, hk⟩, ?_, List.get_mem _ _ _⟩, ?_, min_le_right k 3⟩
  · rw [build_bundle_tipAccount, build_bundle_tipIndex]
    exact List.get?_eq_get hmin
  · exact List.get?_eq_get hmin
  · rw [jitoFeeWallet]
    exact List.get?_eq_get hk
  · intro i hi
    exact ⟨i, hi, rfl⟩

theorem tip_account_selection_witness :
    5 < TIP_ACCOUNTS.length
      ∧ ((∃ a, build_bundle_tipAccount TIP_ACCOUNTS 5 = some a ∧ a ∈ TIP_ACCOUNTS
            ∧ TIP_ACCOUNTS.get? (min 5 3) = some a)
        ∧ (∃ a, jitoFeeWallet TIP_ACCOUNTS 5 = some a ∧ a ∈ TIP_ACCOUNTS)
        ∧ (∀ i, i < TIP_ACCOUNTS.length
            → ∃ d, d < TIP_ACCOUNTS.length
                ∧ jitoFeeWallet TIP_ACCOUNTS d = TIP_ACCOUNTS.get? i)
        ∧ build_bundle_tipIndex 5 ≤ 3) :=
  ⟨by decide, tip_account_selection TIP_ACCOUNTS 5 (by decide)⟩

/-- Constants of the sweep script (src/unnamed/part_003 lines 29-32). -/
def MAX_WALLETS_PER_TRANSACTION : Nat := 6

def RENT_EXEMPT_MINIMUM : Nat := 2039280

def TRANSACTION_FEE : Nat := 5000

/-- SEND_FIXED_AMOUNT is null in the source (line 32); none models null
(and the JavaScript truthiness test on it). -/
def SEND_FIXED_AMOUNT : Option Nat := none

/-- A source wallet of the sweep flow together with the balance its
getBalance call returns; none models a call that threw (the surrounding
catch skips the wallet entirely). -/
structure Wallet where
  publicKey : Nat
  balance : Option Nat
deriving DecidableEq

/-- A SystemProgram.transfer instruction as built in src/unnamed/part_003
lines 234-238. -/
structure TransferInstruction where
  fromPubkey : Nat
  toPubkey : Nat
  lamports : Nat
deriving DecidableEq

/-- The transfer amount computed in src/unnamed/part_003 lines 221-231:
the fixed amount when SEND_FIXED_AMOUNT is truthy and covered by the
balance, otherwise everything above rent and fee. -/
def transferAmount (balance : Nat) : Nat :=
  match SEND_FIXED_AMOUNT with
  | some fixedAmt =>
    if fixedAmt ≠ 0
        ∧ fixedAmt + RENT_EXEMPT_MINIMUM + TRANSACTION_FEE ≤ balance then
      fixedAmt
    else balance - RENT_EXEMPT_MINIMUM - TRANSACTION_FEE
  | none => balance - RENT_EXEMPT_MINIMUM - TRANSACTION_FEE

/-- Embeds the instruction-preparation loop of src/unnamed/part_003 lines
208-245: for each wallet in order whose balance was fetched and exceeds
rent plus fee, one transfer instruction from that wallet to the destination
is appended to transferInstructions and the wallet itself is appended to
signers in the same iteration. -/
def prepareTransfers (wallets : List Wallet) (destination : Nat) :
    List TransferInstruction × List Wallet :=
  match wallets with
  | [] => ([], [])
  | w :: rest =>
    let tail := prepareTransfers rest destination
    match w.balance with
    | none => tail
    | some bal =>
      if bal ≤ RENT_EXEMPT_MINIMUM + TRANSACTION_FEE then tail
      else (⟨w.publicKey, destination, transferAmount bal⟩ :: tail.1,
        w :: tail.2)

/-- The instruction and signer lists are built in lockstep: the source
wallet keys of the instructions are exactly the signer keys, in order. -/
theorem prepareTransfers_lockstep (wallets : List Wallet) (destination : Nat) :
    (prepareTransfers wallets destination).1.map TransferInstruction.fromPubkey
      = (prepareTransfers wallets destination).2.map Wallet.publicKey := by
  induction wallets with
  | nil => rfl
  | cons w rest ih =>
    obtain ⟨pk, ob⟩ := w
    cases ob with
    | none => exact ih
    | some bal =>
      simp only [prepareTransfers]
      by_cases hle : bal ≤ RENT_EXEMPT_MINIMUM + TRANSACTION_FEE
      · rw [if_pos hle]
        exact ih
      · rw [if_neg hle]
        simp only [List.map_cons]
        rw [ih]

/-- batchArray commutes with mapping a function over the elements. -/
theorem batchArray_map {α β : Type} (f : α → β) (k : Nat) (hk : 0 < k)
    (l : List α) :
    batchArray (l.map f) k = (batchArray l k).map (List.map f) := by
  match l with
  | [] => simp [batchArray_nil]
  | x :: xs =>
    have ih := batchArray_map f k hk (xs.drop (k - 1))
    rw [List.map_cons, batchArray_cons (f x) (xs.map f) k hk,
      batchArray_cons x xs k hk, List.map_cons]
    refine congrArg₂ List.cons ?_ ?_
    · rw [← List.map_cons, List.map_take]
    · rw [← ih, List.map_drop]
termination_by l.length
decreasing_by
  simp only [List.length_drop, List.length_cons]
  omega

/-- C10: the sweep flow chunks the instruction list and the signer list
with the same batch size, and the two lists are appended in lockstep, so
whenever the j-th instruction of instruction batch i exists, the j-th
signer of signer batch i exists and its public key is exactly the
fromPubkey (source wallet) of that instruction — every transfer's source
wallet signs the transaction containing its instruction. -/
theorem sweep_signer_alignment (wallets : List Wallet) (destination : Nat)
    (i j : Nat) (batchI : List TransferInstruction) (instr : TransferInstruction)
    (hb : (batchArray (prepareTransfers wallets destination).1
        MAX_WALLETS_PER_TRANSACTION).get? i = some batchI)
    (hj : batchI.get? j = some instr) :
    ∃ sbatch w,
      (batchArray (prepareTransfers wallets destination).2
          MAX_WALLETS_PER_TRANSACTION).get? i = some sbatch
        ∧ sbatch.get? j = some w
        ∧ w.publicKey = instr.fromPubkey := by
  have h6 : 0 < MAX_WALLETS_PER_TRANSACTION := by decide
  have hchunks :
      (batchArray (prepareTransfers wallets destination).1
          MAX_WALLETS_PER_TRANSACTION).map (List.map TransferInstruction.fromPubkey)
        = (batchArray (prepareTransfers wallets destination).2
          MAX_WALLETS_PER_TRANSACTION).map (List.map Wallet.publicKey) := by
    rw [← batchArray_map TransferInstruction.fromPubkey MAX_WALLETS_PER_TRANSACTION h6,
      ← batchArray_map Wallet.publicKey MAX_WALLETS_PER_TRANSACTION h6,
      prepareTransfers_lockstep]
  have hgetA := congrArg (fun l => l.get? i) hchunks
  simp only [List.get?_map] at hgetA
  rw [hb] at hgetA
  cases hBi : (batchArray (prepareTransfers wallets destination).2
      MAX_WALLETS_PER_TRANSACTION).get? i with
  | none =>
    rw [hBi] at hgetA
    exact Option.noConfusion hgetA
  | some sbatch =>
    rw [hBi] at hgetA
    rw [Option.map_some', Option.map_some', Option.some.injEq] at hgetA
    have hrow := congrArg (fun l => l.get? j) hgetA
    simp only [List.get?_map] at hrow
    rw [hj] at hrow
    cases hw : sbatch.get? j with
    | none =>
      rw [hw] at hrow
      exact Option.noConfusion hrow
    | some w =>
      rw [hw] at hrow
      rw [Option.map_some', Option.map_some', Option.some.injEq] at hrow
      exact ⟨sbatch, w, rfl, hw, hrow.symm⟩

/-- Two concrete sweep wallets with balances above rent plus fee. -/
def sweepW1 : Wallet := ⟨1, some 3000000⟩

def sweepW2 : Wallet := ⟨2, some 4000000⟩

theorem sweep_signer_alignment_witness :
    ((batchArray (prepareTransfers [sweepW1, sweepW2] 9).1
          MAX_WALLETS_PER_TRANSACTION).get? 0
        = some [⟨1, 9, 955720⟩, ⟨2, 9, 1955720⟩]
      ∧ ([(⟨1, 9, 955720⟩ : TransferInstruction), ⟨2, 9, 1955720⟩]).get? 1
        = some ⟨2, 9, 1955720⟩)
      ∧ ∃ sbatch w,
        (batchArray (prepareTransfers [sweepW1, sweepW2] 9).2
            MAX_WALLETS_PER_TRANSACTION).get? 0 = some sbatch
          ∧ sbatch.get? 1 = some w
          ∧ w.publicKey = (⟨2, 9, 1955720⟩ : TransferInstruction).fromPubkey :=
  ⟨⟨by decide, by decide⟩,
    sweep_signer_alignment [sweepW1, sweepW2] 9 0 1
      [⟨1, 9, 955720⟩, ⟨2, 9, 1955720⟩] ⟨2, 9, 1955720⟩ (by decide) (by decide)⟩
